import Mathlib

/-!
Verification of the BayerImageProcessor core components.

The development shallowly embeds the Python sources:

* `shiftRightImage.py` — the Region Shifter (`shift_image_region_numpy`,
  `shift_right_image_file`);
* `detectAndFixShift.py` — the Shift Detector and Shift Corrector
  (`detect_and_fix_shift`);
* `diffBinImage.py` — the Byte-Range Differ (a module-level loop, embedded
  here as `diffRun` / `diffBin`);
* the header decoding shared by `main.py` and
  `BayerImageProcessor.py` (`analog_gain`, `integration_time`,
  `integration_time_ms`).

Buffers are lists of natural numbers (byte values), machine integers from the
Python code are `ℤ`, and the floating-point scores of the detector are
modelled over `ℚ`.
-/

namespace BayerProc

/-! ### List indexing helpers -/

theorem getD_append_left {α : Type} (l1 l2 : List α) (d : α) (i : ℕ)
    (h : i < l1.length) : (l1 ++ l2).getD i d = l1.getD i d := by
  simp [List.getD_eq_getElem?_getD, List.getElem?_append_left h]

theorem getD_append_right {α : Type} (l1 l2 : List α) (d : α) (i : ℕ)
    (h : l1.length ≤ i) : (l1 ++ l2).getD i d = l2.getD (i - l1.length) d := by
  simp [List.getD_eq_getElem?_getD, List.getElem?_append_right h]

theorem getD_drop {α : Type} (l : List α) (d : α) (m i : ℕ) :
    (l.drop m).getD i d = l.getD (m + i) d := by
  simp [List.getD_eq_getElem?_getD, List.getElem?_drop]

theorem getD_take {α : Type} (l : List α) (d : α) (n i : ℕ) (h : i < n) :
    (l.take n).getD i d = l.getD i d := by
  simp [List.getD_eq_getElem?_getD, List.getElem?_take_of_lt h]

theorem getD_replicate {α : Type} (d a : α) (n i : ℕ) (h : i < n) :
    (List.replicate n a).getD i d = a := by
  simp [List.getD_eq_getElem?_getD, List.getElem?_replicate, h]

/-! ### Region Shifter (`shiftRightImage.py`) -/

/-- Outcome of a Python call: a normal return carrying the returned status code
together with the (possibly mutated) buffer, or an uncaught exception, carrying
the state the buffer had when the exception was raised. -/
inductive PyResult (α : Type) where
  | ret (code : ℤ) (val : α)
  | exn (val : α)
  deriving DecidableEq, Repr

/-- The in-place update performed by `shift_image_region_numpy` once every
parameter check has passed, as a pure function producing the new buffer.
Source (`shiftRightImage.py` lines 60-62):
`region = img.ravel()[offset:]`, `region[shift_count:] = region[:-shift_count]`,
`region[:shift_count] = 0`. -/
def shiftedBuf (buf : List ℕ) (offset k : ℕ) : List ℕ :=
  buf.take offset ++
    (List.replicate k 0 ++ (buf.drop offset).take ((buf.drop offset).length - k))

/-- Shallow embedding of `shift_image_region_numpy` (`shiftRightImage.py`
lines 34-64).  The guards are translated in source order; the
`buf.reshape((img_height, img_width))` call raises a `ValueError` unless the
buffer holds exactly `img_height * img_width` entries, which is the `exn`
branch. -/
def shift_image_region_numpy (buf : List ℕ)
    (img_width img_height shift_count start_row start_col : ℤ) :
    PyResult (List ℕ) :=
  if shift_count < 1 then .ret 1 buf
  else if start_row < 0 ∨ start_row ≥ img_height ∨ start_col < 0 ∨ start_col ≥ img_width then
    .ret 1 buf
  else if (buf.length : ℤ) ≠ img_height * img_width then .exn buf
  else
    let offset := start_row * img_width + start_col
    let total_pixels := img_width * img_height
    if offset < 0 ∨ offset ≥ total_pixels then .ret 1 buf
    else
      let region_size := total_pixels - offset
      if shift_count < 1 ∨ shift_count > region_size then .ret 1 buf
      else .ret 0 (shiftedBuf buf offset.toNat shift_count.toNat)

/-- Shallow embedding of `shift_right_image_file` (`shiftRightImage.py`
lines 67-107).  The file is modelled by its byte contents; `os.path.getsize`
reports its length.  The returned pair is the status code together with the
final contents of the file (the write-back happens only on status 0; any
exception is caught and turned into status 1 with the file unwritten). -/
def shift_right_image_file (file : List ℕ)
    (shift_count start_row start_col img_width img_height : ℤ) :
    ℤ × List ℕ :=
  if shift_count < 1 then (1, file)
  else if start_row < 0 ∨ start_row ≥ img_height ∨ start_col < 0 ∨ start_col ≥ img_width then
    (1, file)
  else if (file.length : ℤ) ≠ img_width * img_height then (1, file)
  else if (file.length : ℤ) ≠ img_width * img_height then (1, file)
  else
    match shift_image_region_numpy file img_width img_height shift_count start_row start_col with
    | .ret code buf => if code ≠ 0 then (code, file) else (0, buf)
    | .exn _ => (1, file)

/-- The full postcondition of a successful region shift at flat offset
`offset` with shift count `k`: same length, bytes below `offset` unchanged,
`[offset, offset+k)` zero-filled, and every later byte moved right by `k`. -/
def ShiftContract (buf out : List ℕ) (offset k : ℕ) : Prop :=
  out.length = buf.length ∧
  (∀ i, i < offset → out.getD i 0 = buf.getD i 0) ∧
  (∀ i, offset ≤ i → i < offset + k → out.getD i 0 = 0) ∧
  (∀ i, offset + k ≤ i → i < buf.length → out.getD i 0 = buf.getD (i - k) 0)

theorem shiftedBuf_contract (buf : List ℕ) (offset k : ℕ)
    (hok : offset + k ≤ buf.length) :
    ShiftContract buf (shiftedBuf buf offset k) offset k := by
  have hto : (buf.take offset).length = offset := by
    simp [List.length_take]
    omega
  refine ⟨?_, ?_, ?_, ?_⟩
  · simp [shiftedBuf, List.length_take, List.length_drop]
    omega
  · intro i hi
    rw [shiftedBuf, getD_append_left _ _ _ _ (by rw [hto]; omega),
      getD_take _ _ _ _ hi]
  · intro i h1 h2
    rw [shiftedBuf, getD_append_right _ _ _ _ (by rw [hto]; omega), hto,
      getD_append_left _ _ _ _ (by simp [List.length_replicate]; omega),
      getD_replicate _ _ _ _ (by omega)]
  · intro i h1 h2
    rw [shiftedBuf, getD_append_right _ _ _ _ (by rw [hto]; omega), hto,
      getD_append_right _ _ _ _ (by simp [List.length_replicate]; omega),
      List.length_replicate,
      getD_take _ _ _ _ (by simp [List.length_drop]; omega), getD_drop]
    congr 1
    omega

theorem offset_bounds {w h r c : ℤ} (hr0 : 0 ≤ r) (hrh : r < h) (hc0 : 0 ≤ c)
    (hcw : c < w) : 0 ≤ r * w + c ∧ r * w + c < w * h := by
  constructor
  · have hw0 : (0 : ℤ) ≤ w := le_of_lt (lt_of_le_of_lt hc0 hcw)
    have := mul_nonneg hr0 hw0
    omega
  · have h1 : r * w ≤ (h - 1) * w :=
      mul_le_mul_of_nonneg_right (by omega) (by omega)
    have h2 : (h - 1) * w = h * w - w := by ring
    have h3 : w * h = h * w := by ring
    omega

theorem shift_core_success (buf : List ℕ) (w h k r c : ℕ)
    (hlen : buf.length = w * h) (hk : 1 ≤ k) (hr : r < h) (hc : c < w)
    (hfit : k ≤ w * h - (r * w + c)) :
    shift_image_region_numpy buf w h k r c = .ret 0 (shiftedBuf buf (r * w + c) k) := by
  have hofflt : r * w + c < w * h := by
    have h1 : (r + 1) * w ≤ h * w := Nat.mul_le_mul_right w hr
    rw [Nat.add_mul, one_mul] at h1
    rw [Nat.mul_comm w h]
    omega
  have e1 : ((r : ℤ) * (w : ℤ) + (c : ℤ)).toNat = r * w + c := by
    rw [show ((r : ℤ) * (w : ℤ) + (c : ℤ)) = ((r * w + c : ℕ) : ℤ) by push_cast; ring,
      Int.toNat_natCast]
  have hoffz : ((r : ℤ) * (w : ℤ) + (c : ℤ)) = ((r * w + c : ℕ) : ℤ) := by push_cast; ring
  have htotz : ((w : ℤ) * (h : ℤ)) = ((w * h : ℕ) : ℤ) := by push_cast; ring
  unfold shift_image_region_numpy
  rw [if_neg (by omega : ¬ ((k : ℤ) < 1))]
  rw [if_neg (by omega :
    ¬ ((r : ℤ) < 0 ∨ (r : ℤ) ≥ (h : ℤ) ∨ (c : ℤ) < 0 ∨ (c : ℤ) ≥ (w : ℤ)))]
  rw [if_neg (by rw [hlen]; push_cast; intro hne; exact hne (by ring) :
    ¬ ((buf.length : ℤ) ≠ (h : ℤ) * (w : ℤ)))]
  rw [if_neg (by rw [hoffz, htotz]; omega :
    ¬ ((r : ℤ) * (w : ℤ) + (c : ℤ) < 0 ∨ (r : ℤ) * (w : ℤ) + (c : ℤ) ≥ (w : ℤ) * (h : ℤ)))]
  rw [if_neg (by rw [hoffz, htotz]; omega :
    ¬ ((k : ℤ) < 1 ∨ (k : ℤ) > (w : ℤ) * (h : ℤ) - ((r : ℤ) * (w : ℤ) + (c : ℤ))))]
  rw [e1, Int.toNat_natCast]

/-- C2: for a buffer of exactly `width*height` bytes and parameters meeting the
shifter's preconditions, `shift_image_region_numpy` succeeds (returns 0), bytes
below `offset = start_row*width + start_col` are unchanged, the bytes in
`[offset, offset+shift_count)` are zero, and every byte at
`i ∈ [offset+shift_count, width*height)` equals the original byte at
`i - shift_count`. -/
theorem claim_C2_shift_right_postcondition (buf : List ℕ) (w h k r c : ℕ)
    (hlen : buf.length = w * h) (hk : 1 ≤ k) (hr : r < h) (hc : c < w)
    (hfit : k ≤ w * h - (r * w + c)) :
    shift_image_region_numpy buf w h k r c = .ret 0 (shiftedBuf buf (r * w + c) k) ∧
    ShiftContract buf (shiftedBuf buf (r * w + c) k) (r * w + c) k := by
  have hofflt : r * w + c < w * h := by
    have h1 : (r + 1) * w ≤ h * w := Nat.mul_le_mul_right w hr
    rw [Nat.add_mul, one_mul] at h1
    rw [Nat.mul_comm w h]
    omega
  refine ⟨shift_core_success buf w h k r c hlen hk hr hc hfit, ?_⟩
  apply shiftedBuf_contract
  omega

/-- Witness for C2 at `buf = [1,2,3,4]`, `w = h = 2`, `shift_count = 1`,
`start_row = 0`, `start_col = 1`. -/
theorem claim_C2_shift_right_postcondition_witness :
    shift_image_region_numpy [1, 2, 3, 4] 2 2 1 0 1 =
      .ret 0 (shiftedBuf [1, 2, 3, 4] 1 1) ∧
    ShiftContract [1, 2, 3, 4] (shiftedBuf [1, 2, 3, 4] 1 1) 1 1 :=
  claim_C2_shift_right_postcondition [1, 2, 3, 4] 2 2 1 0 1 (by decide) (by decide)
    (by decide) (by decide) (by decide)

/-- C5: with a correctly sized buffer, `shift_image_region_numpy` returns the
error status 1 exactly when `shift_count < 1`, `start_row` is outside
`[0, height)`, `start_col` is outside `[0, width)`, or `shift_count` exceeds
the remaining region `width*height - offset`; in every failure the buffer is
the untouched input. -/
theorem claim_C5_error_return_iff (buf : List ℕ) (w h k r c : ℤ)
    (hlen : (buf.length : ℤ) = h * w) :
    shift_image_region_numpy buf w h k r c = .ret 1 buf ↔
      (k < 1 ∨ r < 0 ∨ r ≥ h ∨ c < 0 ∨ c ≥ w ∨ k > w * h - (r * w + c)) := by
  unfold shift_image_region_numpy
  simp only []
  split_ifs with h1 h2 h3 h4 h5
  · exact ⟨fun _ => Or.inl h1, fun _ => rfl⟩
  · exact ⟨fun _ => by tauto, fun _ => rfl⟩
  · exact absurd hlen h3
  · push_neg at h2
    obtain ⟨hr0, hrh, hc0, hcw⟩ := h2
    have hb := offset_bounds hr0 hrh hc0 hcw
    exact absurd h4 (by omega)
  · constructor
    · intro _
      rcases h5 with h5a | h5b
      · omega
      · exact Or.inr (Or.inr (Or.inr (Or.inr (Or.inr h5b))))
    · intro _
      rfl
  · push_neg at h2 h4 h5
    constructor
    · intro hEq
      simp at hEq
    · intro hRHS
      rcases hRHS with hx | hx | hx | hx | hx | hx
      all_goals first
        | (exact absurd hx h1)
        | omega

/-- Witness for C5: `shift_count = 0` is rejected with status 1. -/
theorem claim_C5_error_return_iff_witness :
    shift_image_region_numpy [1, 2, 3, 4] 2 2 0 0 0 = .ret 1 [1, 2, 3, 4] :=
  (claim_C5_error_return_iff [1, 2, 3, 4] 2 2 0 0 0 (by decide)).mpr
    (Or.inl (by decide))

theorem shift_core_cases (buf : List ℕ) (w h k r c : ℤ) :
    shift_image_region_numpy buf w h k r c = .ret 1 buf ∨
    shift_image_region_numpy buf w h k r c = .exn buf ∨
    ((r * w + c).toNat + k.toNat ≤ buf.length ∧
      shift_image_region_numpy buf w h k r c =
        .ret 0 (shiftedBuf buf (r * w + c).toNat k.toNat)) := by
  unfold shift_image_region_numpy
  simp only []
  by_cases h1 : k < 1
  · rw [if_pos h1]; exact Or.inl rfl
  rw [if_neg h1]
  by_cases h2 : r < 0 ∨ r ≥ h ∨ c < 0 ∨ c ≥ w
  · rw [if_pos h2]; exact Or.inl rfl
  rw [if_neg h2]
  by_cases h3 : (buf.length : ℤ) ≠ h * w
  · rw [if_pos h3]; exact Or.inr (Or.inl rfl)
  rw [if_neg h3]
  by_cases h4 : r * w + c < 0 ∨ r * w + c ≥ w * h
  · rw [if_pos h4]; exact Or.inl rfl
  rw [if_neg h4]
  by_cases h5 : k < 1 ∨ k > w * h - (r * w + c)
  · rw [if_pos h5]; exact Or.inl rfl
  rw [if_neg h5]
  refine Or.inr (Or.inr ⟨?_, rfl⟩)
  push_neg at h2 h3 h4 h5
  have hcomm : (w * h : ℤ) = h * w := by ring
  omega

theorem shift_core_error_unchanged (buf : List ℕ) (w h k r c code : ℤ)
    (out : List ℕ) (hres : shift_image_region_numpy buf w h k r c = .ret code out)
    (hcode : code ≠ 0) : out = buf := by
  rcases shift_core_cases buf w h k r c with hc | hc | ⟨hb, hc⟩ <;>
    rw [hc] at hres
  · injection hres with h1 h2
    exact h2.symm
  · exact PyResult.noConfusion hres
  · injection hres with h1 h2
    exact absurd h1.symm hcode

theorem shift_core_exn_unchanged (buf : List ℕ) (w h k r c : ℤ)
    (out : List ℕ) (hres : shift_image_region_numpy buf w h k r c = .exn out) :
    out = buf := by
  rcases shift_core_cases buf w h k r c with hc | hc | ⟨hb, hc⟩ <;>
    rw [hc] at hres
  · exact PyResult.noConfusion hres
  · injection hres with h2
    exact h2.symm
  · exact PyResult.noConfusion hres

theorem shift_core_success_contract (buf : List ℕ) (w h k r c : ℤ)
    (out : List ℕ) (hres : shift_image_region_numpy buf w h k r c = .ret 0 out) :
    ShiftContract buf out (r * w + c).toNat k.toNat := by
  rcases shift_core_cases buf w h k r c with hc | hc | ⟨hb, hc⟩ <;>
    rw [hc] at hres
  · injection hres with h1 h2
    exact absurd h1 (by decide)
  · exact PyResult.noConfusion hres
  · injection hres with h1 h2
    rw [← h2]
    exact shiftedBuf_contract buf _ _ hb

theorem shift_file_cases (file : List ℕ) (k r c w h : ℤ) :
    shift_right_image_file file k r c w h = (1, file) ∨
    ((r * w + c).toNat + k.toNat ≤ file.length ∧
      shift_right_image_file file k r c w h =
        (0, shiftedBuf file (r * w + c).toNat k.toNat)) := by
  unfold shift_right_image_file
  by_cases h1 : k < 1
  · rw [if_pos h1]; exact Or.inl rfl
  rw [if_neg h1]
  by_cases h2 : r < 0 ∨ r ≥ h ∨ c < 0 ∨ c ≥ w
  · rw [if_pos h2]; exact Or.inl rfl
  rw [if_neg h2]
  by_cases h3 : (file.length : ℤ) ≠ w * h
  · rw [if_pos h3]; exact Or.inl rfl
  rw [if_neg h3, if_neg h3]
  rcases shift_core_cases file w h k r c with hc | hc | ⟨hb, hc⟩ <;> rw [hc]
  · exact Or.inl rfl
  · exact Or.inl rfl
  · exact Or.inr ⟨hb, rfl⟩

theorem shift_file_error_unchanged (file : List ℕ) (k r c w h code : ℤ)
    (out : List ℕ) (hres : shift_right_image_file file k r c w h = (code, out))
    (hcode : code ≠ 0) : out = file := by
  rcases shift_file_cases file k r c w h with hc | ⟨hb, hc⟩ <;> rw [hc] at hres
  · injection hres with h1 h2
    exact h2.symm
  · injection hres with h1 h2
    exact absurd h1.symm hcode

theorem shift_file_success_contract (file : List ℕ) (k r c w h : ℤ)
    (out : List ℕ) (hres : shift_right_image_file file k r c w h = (0, out)) :
    ShiftContract file out (r * w + c).toNat k.toNat := by
  rcases shift_file_cases file k r c w h with hc | ⟨hb, hc⟩ <;> rw [hc] at hres
  · injection hres with h1 h2
    exact absurd h1 (by decide)
  · injection hres with h1 h2
    rw [← h2]
    exact shiftedBuf_contract file _ _ hb

/-- C6: a shift is never partially applied.  For every buffer and every
parameter combination, `shift_image_region_numpy` either returns 0 and
satisfies the full shift contract, or (error return or exception) leaves the
buffer untouched; the file-based `shift_right_image_file` likewise either
satisfies the contract on the file contents or leaves the file contents
unmodified. -/
theorem claim_C6_no_partial_application (buf : List ℕ) (w h k r c : ℤ) :
    (∀ code out, shift_image_region_numpy buf w h k r c = .ret code out →
      code ≠ 0 → out = buf) ∧
    (∀ out, shift_image_region_numpy buf w h k r c = .exn out → out = buf) ∧
    (∀ out, shift_image_region_numpy buf w h k r c = .ret 0 out →
      ShiftContract buf out (r * w + c).toNat k.toNat) ∧
    (∀ code out, shift_right_image_file buf k r c w h = (code, out) →
      code ≠ 0 → out = buf) ∧
    (∀ out, shift_right_image_file buf k r c w h = (0, out) →
      ShiftContract buf out (r * w + c).toNat k.toNat) :=
  ⟨fun code out hres hcode => shift_core_error_unchanged buf w h k r c code out hres hcode,
   fun out hres => shift_core_exn_unchanged buf w h k r c out hres,
   fun out hres => shift_core_success_contract buf w h k r c out hres,
   fun code out hres hcode => shift_file_error_unchanged buf k r c w h code out hres hcode,
   fun out hres => shift_file_success_contract buf k r c w h out hres⟩

/-- Witness for C6: the file path at `file = [3,4]`, `w = 2`, `h = 1`,
`shift_count = 1`, `start_row = start_col = 0` succeeds and satisfies the
contract. -/
theorem claim_C6_no_partial_application_witness :
    ShiftContract [3, 4] [0, 3] ((0 : ℤ) * 2 + 0).toNat (1 : ℤ).toNat :=
  (claim_C6_no_partial_application [3, 4] 2 1 1 0 0).2.2.2.2 [0, 3] (by decide)

/-! ### Shift Detector and Corrector (`detectAndFixShift.py`) -/

/-- Python `range(0, stop, step)` for non-negative bounds: the multiples of
`step` strictly below `stop` in increasing order.  (For `step = 0` Python
raises a `ValueError`; here the list is empty, which likewise yields no
result.) -/
def rangeStep (stop step : ℕ) : List ℕ :=
  (List.range ((stop + step - 1) / step)).map (fun i => i * step)

/-- The flat top-left positions of the patches scanned by
`detect_and_fix_shift`, in scan order.  Source (lines 44-55):
`for row in range(0, height - patch, patch): for col in
range(0, width - patch, patch): positions.append(row * width + col)`. -/
def scanPositions (w h p : ℕ) : List ℕ :=
  (rangeStep (h - p) p).flatMap (fun row => (rangeStep (w - p) p).map (fun col => row * w + col))

/-- The patch grid as described by claim C3 (stated from the spec's words, to
be compared with `scanPositions`): non-overlapping `patch`-sized patches over
the payload rows `1 .. height-2`, covering the first
`floor(payload_rows/patch)*patch` payload rows and the first
`floor(width/patch)*patch` columns. -/
def claimPositionsC3 (w h p : ℕ) : List ℕ :=
  (List.range ((h - 2) / p)).flatMap
    (fun i => (List.range (w / p)).map (fun j => (1 + i * p) * w + j * p))

/-- The `patch × patch` crop `raw_img[row:row+patch, col:col+patch]` of the
flat buffer `raw` reshaped to width `w` (line 46). -/
def cropPatch (raw : List ℕ) (w row col p : ℕ) : List (List ℕ) :=
  (List.range p).map (fun i => (List.range p).map (fun j =>
    raw.getD ((row + i) * w + (col + j)) 0))

/-- Mean of one channel (selected by `sel`) over a demosaiced patch, as an
exact rational (`rgb[:, :, ch].mean()`, lines 49-51). -/
def channelMean (sel : ℕ × ℕ × ℕ → ℕ) (img : List (List (ℕ × ℕ × ℕ))) : ℚ :=
  (((img.map (fun row => (row.map sel).sum)).sum : ℕ) : ℚ) /
    (((img.map List.length).sum : ℕ) : ℚ)

/-- The patch score `mean_g / (mean_r + mean_b + 1e-6)` (line 52), where the
external demosaic collaborator (`cv2.cvtColor(..., COLOR_BAYER_RG2RGB)`) is a
parameter producing the three per-pixel channel estimates. -/
def patchScore (demosaic : List (List ℕ) → List (List (ℕ × ℕ × ℕ)))
    (raw : List ℕ) (w row col p : ℕ) : ℚ :=
  let rgb := demosaic (cropPatch raw w row col p)
  let mean_r := channelMean (fun t => t.1) rgb
  let mean_g := channelMean (fun t => t.2.1) rgb
  let mean_b := channelMean (fun t => t.2.2) rgb
  mean_g / (mean_r + mean_b + 1 / 1000000)

/-- The `scores` list built by the detector's double loop, in scan order
(lines 44-54). -/
def detectScores (demosaic : List (List ℕ) → List (List (ℕ × ℕ × ℕ)))
    (raw : List ℕ) (w h p : ℕ) : List ℚ :=
  (rangeStep (h - p) p).flatMap (fun row =>
    (rangeStep (w - p) p).map (fun col => patchScore demosaic raw w row col p))

/-- `diffs = np.abs(np.diff(scores))` (line 58). -/
def detectDiffs (demosaic : List (List ℕ) → List (List (ℕ × ℕ × ℕ)))
    (raw : List ℕ) (w h p : ℕ) : List ℚ :=
  let scores := detectScores demosaic raw w h p
  (List.range (scores.length - 1)).map (fun i =>
    |scores.getD (i + 1) 0 - scores.getD i 0|)

/-- `np.argmax`: the first index attaining the maximum of the list. -/
def argmaxIdx : List ℚ → ℕ
  | [] => 0
  | [_] => 0
  | x :: y :: xs =>
    let j := argmaxIdx (y :: xs)
    if (y :: xs).getD j 0 > x then j + 1 else 0

/-- Shallow embedding of the detection half of `detect_and_fix_shift`
(lines 31-62): `none` models the `ValueError` raised on a size mismatch
(line 36) as well as the `np.argmax` error on an empty `diffs` array; otherwise
the result is `positions[np.argmax(diffs)]`. -/
def detectBestIdx (demosaic : List (List ℕ) → List (List (ℕ × ℕ × ℕ)))
    (raw : List ℕ) (w h p : ℕ) : Option ℕ :=
  if raw.length ≠ w * h then none
  else if (detectScores demosaic raw w h p).length < 2 then none
  else some ((scanPositions w h p).getD (argmaxIdx (detectDiffs demosaic raw w h p)) 0)

/-- The repair half of `detect_and_fix_shift` (lines 65-69), as a pure
function of the input buffer: `fixed = np.copy(raw_flat)`,
`fixed[b+1:] = raw_flat[b:-1]`, `fixed[b] = 0`. -/
def fixShiftAt (raw : List ℕ) (b : ℕ) : List ℕ :=
  raw.take b ++ 0 :: (raw.drop b).dropLast

/-- The corruption described by claim C1: delete the byte at flat index `p`,
shift every subsequent byte left by one, and append a zero byte at the end. -/
def dropByteAt (o : List ℕ) (p : ℕ) : List ℕ :=
  o.take p ++ o.drop (p + 1) ++ [0]

/-- The whole of `detect_and_fix_shift`: the detected break index together
with the corrected buffer that is written to the output file.  The input
buffer is not part of the result because the code never mutates it. -/
def detect_and_fix_shift (demosaic : List (List ℕ) → List (List (ℕ × ℕ × ℕ)))
    (raw : List ℕ) (w h p : ℕ) : Option (ℕ × List ℕ) :=
  match detectBestIdx demosaic raw w h p with
  | none => none
  | some b => some (b, fixShiftAt raw b)

theorem mem_rangeStep {x stop step : ℕ} (hx : x ∈ rangeStep stop step) :
    step ∣ x ∧ x < stop := by
  unfold rangeStep at hx
  rw [List.mem_map] at hx
  obtain ⟨k, hk, rfl⟩ := hx
  rw [List.mem_range] at hk
  refine ⟨dvd_mul_left step k, ?_⟩
  by_cases hs : step = 0
  · subst hs
    simp at hk
  · have hs1 : 0 < step := Nat.pos_of_ne_zero hs
    have h2 : (k + 1) * step ≤ stop + step - 1 :=
      calc (k + 1) * step ≤ ((stop + step - 1) / step) * step :=
            Nat.mul_le_mul_right step hk
        _ ≤ stop + step - 1 := Nat.div_mul_le_self _ _
    have h3 : 1 * step ≤ (k + 1) * step := Nat.mul_le_mul_right step (by omega)
    rw [one_mul] at h3
    rw [Nat.add_mul, one_mul] at h2
    omega

theorem mem_rangeStep_of {x stop step : ℕ} (hs : 0 < step) (hdvd : step ∣ x)
    (hlt : x < stop) : x ∈ rangeStep stop step := by
  obtain ⟨k, rfl⟩ := hdvd
  unfold rangeStep
  rw [List.mem_map]
  refine ⟨k, ?_, by ring⟩
  rw [List.mem_range]
  have h2 : k * step ≤ stop - 1 := by
    rw [Nat.mul_comm]
    omega
  have h3 : k ≤ (stop - 1) / step := (Nat.le_div_iff_mul_le hs).mpr h2
  have h4 : (stop - 1 + step) / step = (stop - 1) / step + 1 := Nat.add_div_right _ hs
  have h5 : stop + step - 1 = stop - 1 + step := by omega
  rw [h5, h4]
  omega

theorem mem_scanPositions {w h p x : ℕ} (hx : x ∈ scanPositions w h p) :
    ∃ r c, x = r * w + c ∧ p ∣ r ∧ p ∣ c ∧ r + p < h ∧ c + p < w := by
  unfold scanPositions at hx
  rw [List.mem_flatMap] at hx
  obtain ⟨r, hr, hx⟩ := hx
  rw [List.mem_map] at hx
  obtain ⟨c, hc, rfl⟩ := hx
  obtain ⟨hdr, hltr⟩ := mem_rangeStep hr
  obtain ⟨hdc, hltc⟩ := mem_rangeStep hc
  exact ⟨r, c, rfl, hdr, hdc, by omega, by omega⟩

theorem scanPositions_lt {w h p x : ℕ} (hx : x ∈ scanPositions w h p) :
    x < w * h := by
  obtain ⟨r, c, rfl, hdr, hdc, hrh, hcw⟩ := mem_scanPositions hx
  have h1 : (r + 1) * w ≤ h * w := Nat.mul_le_mul_right w (by omega)
  rw [Nat.add_mul, one_mul] at h1
  rw [Nat.mul_comm w h]
  omega

theorem detectScores_length (demosaic : List (List ℕ) → List (List (ℕ × ℕ × ℕ)))
    (raw : List ℕ) (w h p : ℕ) :
    (detectScores demosaic raw w h p).length = (scanPositions w h p).length := by
  unfold detectScores scanPositions
  induction rangeStep (h - p) p with
  | nil => rfl
  | cons a l ih => simp [List.flatMap_cons, ih]

theorem argmaxIdx_spec : ∀ (l : List ℚ), l ≠ [] →
    argmaxIdx l < l.length ∧
    (∀ i, i < l.length → l.getD i 0 ≤ l.getD (argmaxIdx l) 0) ∧
    (∀ i, i < argmaxIdx l → l.getD i 0 < l.getD (argmaxIdx l) 0)
  | [], hne => absurd rfl hne
  | [x], _ => by
    refine ⟨by simp [argmaxIdx], ?_, ?_⟩
    · intro i hi
      simp at hi
      subst hi
      simp [argmaxIdx]
    · intro i hi
      simp [argmaxIdx] at hi
  | x :: y :: xs, _ => by
    obtain ⟨ih1, ih2, ih3⟩ := argmaxIdx_spec (y :: xs) (by simp)
    simp only [argmaxIdx]
    by_cases hgt : (y :: xs).getD (argmaxIdx (y :: xs)) 0 > x
    · rw [if_pos hgt]
      refine ⟨by simpa using ih1, ?_, ?_⟩
      · intro i hi
        cases i with
        | zero =>
          simp only [List.getD_cons_zero, List.getD_cons_succ]
          exact le_of_lt hgt
        | succ i2 =>
          simp only [List.getD_cons_succ]
          exact ih2 i2 (by simpa using hi)
      · intro i hi
        cases i with
        | zero =>
          simp only [List.getD_cons_zero, List.getD_cons_succ]
          exact hgt
        | succ i2 =>
          simp only [List.getD_cons_succ]
          exact ih3 i2 (by omega)
    · rw [if_neg hgt]
      push_neg at hgt
      refine ⟨by simp, ?_, ?_⟩
      · intro i hi
        cases i with
        | zero => simp
        | succ i2 =>
          simp only [List.getD_cons_succ, List.getD_cons_zero]
          exact le_trans (ih2 i2 (by simpa using hi)) hgt
      · intro i hi
        omega

theorem detectDiffs_length (demosaic : List (List ℕ) → List (List (ℕ × ℕ × ℕ)))
    (raw : List ℕ) (w h p : ℕ) :
    (detectDiffs demosaic raw w h p).length =
      (detectScores demosaic raw w h p).length - 1 := by
  simp [detectDiffs]

theorem detectDiffs_getD (demosaic : List (List ℕ) → List (List (ℕ × ℕ × ℕ)))
    (raw : List ℕ) (w h p i : ℕ)
    (hi : i < (detectScores demosaic raw w h p).length - 1) :
    (detectDiffs demosaic raw w h p).getD i 0 =
      |(detectScores demosaic raw w h p).getD (i + 1) 0 -
        (detectScores demosaic raw w h p).getD i 0| := by
  unfold detectDiffs
  simp only []
  rw [List.getD_eq_getElem?_getD, List.getElem?_map, List.getElem?_range hi]
  rfl

theorem detectBestIdx_inv {demosaic : List (List ℕ) → List (List (ℕ × ℕ × ℕ))}
    {raw : List ℕ} {w h p b : ℕ}
    (hb : detectBestIdx demosaic raw w h p = some b) :
    raw.length = w * h ∧ 2 ≤ (detectScores demosaic raw w h p).length ∧
    b = (scanPositions w h p).getD (argmaxIdx (detectDiffs demosaic raw w h p)) 0 := by
  unfold detectBestIdx at hb
  by_cases h1 : raw.length ≠ w * h
  · rw [if_pos h1] at hb
    exact Option.noConfusion hb
  rw [if_neg h1] at hb
  by_cases h2 : (detectScores demosaic raw w h p).length < 2
  · rw [if_pos h2] at hb
    exact Option.noConfusion hb
  rw [if_neg h2] at hb
  injection hb with hb
  exact ⟨not_not.mp h1, by omega, hb.symm⟩

theorem detectBestIdx_mem {demosaic : List (List ℕ) → List (List (ℕ × ℕ × ℕ))}
    {raw : List ℕ} {w h p b : ℕ}
    (hb : detectBestIdx demosaic raw w h p = some b) :
    b ∈ scanPositions w h p := by
  obtain ⟨hlen, hse, hbe⟩ := detectBestIdx_inv hb
  have hd := detectDiffs_length demosaic raw w h p
  have hne : detectDiffs demosaic raw w h p ≠ [] := by
    intro hemp
    rw [hemp] at hd
    simp at hd
    omega
  obtain ⟨hsp, -, -⟩ := argmaxIdx_spec _ hne
  have hsl := detectScores_length demosaic raw w h p
  have hlt : argmaxIdx (detectDiffs demosaic raw w h p) <
      (scanPositions w h p).length := by omega
  rw [hbe, List.getD_eq_getElem?_getD, List.getElem?_eq_getElem hlt]
  exact List.getElem_mem hlt

theorem fixShiftAt_dropByteAt (o : List ℕ) (p : ℕ) (hp : p < o.length) :
    fixShiftAt (dropByteAt o p) p = o.take p ++ 0 :: o.drop (p + 1) := by
  have ht : (o.take p).length = p := by
    simp [List.length_take]
    omega
  unfold fixShiftAt dropByteAt
  rw [List.append_assoc, List.take_left' ht, List.drop_left' ht, List.dropLast_concat]

/-- C1: repairing at the correct break index restores the original frame.  If
`c` is built from `o` by deleting the byte at index `p`, shifting every later
byte left by one and appending a trailing zero, then the corrector's fix of
`c` at break index `p` agrees with `o` everywhere except index `p`, which
holds 0. -/
theorem claim_C1_repair_restores_frame (o : List ℕ) (p : ℕ) (hp : p < o.length) :
    (fixShiftAt (dropByteAt o p) p).length = o.length ∧
    ∀ i, i < o.length →
      (fixShiftAt (dropByteAt o p) p).getD i 0 = if i = p then 0 else o.getD i 0 := by
  rw [fixShiftAt_dropByteAt o p hp]
  have ht : (o.take p).length = p := by
    simp [List.length_take]
    omega
  constructor
  · simp [List.length_take, List.length_drop]
    omega
  · intro i hi
    rcases lt_trichotomy i p with hlt | heq | hgt
    · rw [if_neg (by omega), getD_append_left _ _ _ _ (by rw [ht]; omega),
        getD_take _ _ _ _ hlt]
    · subst heq
      rw [getD_append_right _ _ _ _ ht.le, ht]
      simp
    · rw [if_neg (by omega), getD_append_right _ _ _ _ (by rw [ht]; omega), ht,
        show i - p = (i - p - 1) + 1 by omega, List.getD_cons_succ, getD_drop]
      congr 1
      omega

/-- Witness for C1 at `o = [5,6,7]`, `p = 1`: the repaired buffer has length 3,
holds 0 at index 1 and the original byte at index 2. -/
theorem claim_C1_repair_restores_frame_witness :
    (fixShiftAt (dropByteAt [5, 6, 7] 1) 1).length = 3 ∧
    (fixShiftAt (dropByteAt [5, 6, 7] 1) 1).getD 1 0 = 0 ∧
    (fixShiftAt (dropByteAt [5, 6, 7] 1) 1).getD 2 0 = 7 := by
  have h := claim_C1_repair_restores_frame [5, 6, 7] 1 (by decide)
  refine ⟨by simpa using h.1, by simpa using h.2 1 (by decide), ?_⟩
  have h2 := h.2 2 (by decide)
  simpa using h2

/-- C3 (counterexample): at `width = 16`, `height = 10`, `patch = 4` the
detector's patch grid is not the grid the claim describes.  The code scans
top-left corners `{0,4,8} × {0,4} (rows via range(0, height-patch, patch),
cols via range(0, width-patch, patch))`, which starts at frame row 0 (the
header row, not payload row 1) and stops a full patch short of the width,
whereas the claim's payload grid would be rows 1 and 5 with columns
`{0,4,8,12}`. -/
theorem claim_C3_counterexample :
    scanPositions 16 10 4 = [0, 4, 8, 64, 68, 72] ∧
    claimPositionsC3 16 10 4 = [16, 20, 24, 28, 80, 84, 88, 92] ∧
    scanPositions 16 10 4 ≠ claimPositionsC3 16 10 4 := by decide

/-- C3 (amended): the detector scans the whole frame, not the payload: patch
top-left corners are exactly the flat offsets `r*width + c` with `r` and `c`
multiples of `patch`, `r + patch < height` and `c + patch < width` (both
bounds strict).  The scan therefore starts at frame row 0 (the header row)
and leaves the trailing rows and columns unscored — a full patch-wide band
when `patch` divides the dimension, not merely a partial band. -/
theorem claim_C3_scan_coverage (w h p : ℕ) (hp : 0 < p) (x : ℕ) :
    x ∈ scanPositions w h p ↔
      ∃ r c, x = r * w + c ∧ p ∣ r ∧ p ∣ c ∧ r + p < h ∧ c + p < w := by
  constructor
  · exact mem_scanPositions
  · rintro ⟨r, c, rfl, hdr, hdc, hrh, hcw⟩
    unfold scanPositions
    rw [List.mem_flatMap]
    exact ⟨r, mem_rangeStep_of hp hdr (by omega),
      List.mem_map.mpr ⟨c, mem_rangeStep_of hp hdc (by omega), rfl⟩⟩

/-- Witness for the amended C3: offset 68 = 4*16 + 4 is a scanned corner of
the 16×10 frame with patch 4. -/
theorem claim_C3_scan_coverage_witness : 68 ∈ scanPositions 16 10 4 :=
  (claim_C3_scan_coverage 16 10 4 (by decide) 68).mpr ⟨4, 4, by decide⟩

/-- A concrete demosaic collaborator used only to instantiate witnesses: each
sample becomes an (R, G, B) triple with all three channels equal to it. -/
def demosaicTriple (patch : List (List ℕ)) : List (List (ℕ × ℕ × ℕ)) :=
  patch.map (fun row => row.map (fun v => (v, v, v)))

/-- C7: when the detector returns a break index, the scores are exactly the
per-patch values `mean_g / (mean_r + mean_b + 1e-6)` in scan order, the diffs
are the absolute differences of consecutive scores, and the returned index is
`positions[argmax(diffs)]`: the flat offset, at some diff position `j`, whose
diff is maximal and is the first diff attaining that maximum. -/
theorem claim_C7_score_and_argmax
    (demosaic : List (List ℕ) → List (List (ℕ × ℕ × ℕ)))
    (raw : List ℕ) (w h p b : ℕ)
    (hb : detectBestIdx demosaic raw w h p = some b) :
    detectScores demosaic raw w h p =
      (rangeStep (h - p) p).flatMap (fun row =>
        (rangeStep (w - p) p).map (fun col => patchScore demosaic raw w row col p)) ∧
    (∀ i, i + 1 < (detectScores demosaic raw w h p).length →
      (detectDiffs demosaic raw w h p).getD i 0 =
        |(detectScores demosaic raw w h p).getD (i + 1) 0 -
          (detectScores demosaic raw w h p).getD i 0|) ∧
    ∃ j, j < (detectDiffs demosaic raw w h p).length ∧
      b = (scanPositions w h p).getD j 0 ∧
      (∀ i, i < (detectDiffs demosaic raw w h p).length →
        (detectDiffs demosaic raw w h p).getD i 0 ≤
          (detectDiffs demosaic raw w h p).getD j 0) ∧
      (∀ i, i < j → (detectDiffs demosaic raw w h p).getD i 0 <
        (detectDiffs demosaic raw w h p).getD j 0) := by
  obtain ⟨hlen, hs2, hbe⟩ := detectBestIdx_inv hb
  refine ⟨rfl, ?_, ?_⟩
  · intro i hi
    exact detectDiffs_getD demosaic raw w h p i (by omega)
  · have hd := detectDiffs_length demosaic raw w h p
    have hne : detectDiffs demosaic raw w h p ≠ [] := by
      intro hemp
      rw [hemp] at hd
      simp at hd
      omega
    obtain ⟨hsp, hmax, hfirst⟩ := argmaxIdx_spec _ hne
    exact ⟨argmaxIdx (detectDiffs demosaic raw w h p), hsp, hbe,
      fun i hi => hmax i hi, fun i hi => hfirst i hi⟩

/-- Witness for C7 at a 3×2 frame with patch 1 (two scanned patches) and the
trivial triple demosaic. -/
theorem claim_C7_score_and_argmax_witness :
    detectScores demosaicTriple [0, 1, 2, 3, 4, 5] 3 2 1 =
      (rangeStep (2 - 1) 1).flatMap (fun row =>
        (rangeStep (3 - 1) 1).map (fun col =>
          patchScore demosaicTriple [0, 1, 2, 3, 4, 5] 3 row col 1)) :=
  (claim_C7_score_and_argmax demosaicTriple [0, 1, 2, 3, 4, 5] 3 2 1 0 (by decide)).1

/-- C9: every break index the detector returns is patch-aligned: it decomposes
as `r*width + c` with `r` and `c` multiples of `patch`, `r + patch < height`
and `c + patch < width`, so the zero byte of the subsequent repair lands on a
patch top-left corner strictly inside the frame, never in the last patch-wide
band of rows or columns; moreover the frame was accepted, i.e. the buffer
holds exactly `width*height` bytes. -/
theorem claim_C9_break_index_patch_aligned
    (demosaic : List (List ℕ) → List (List (ℕ × ℕ × ℕ)))
    (raw : List ℕ) (w h p b : ℕ)
    (hb : detectBestIdx demosaic raw w h p = some b) :
    raw.length = w * h ∧
    ∃ r c, b = r * w + c ∧ p ∣ r ∧ p ∣ c ∧ r + p < h ∧ c + p < w :=
  ⟨(detectBestIdx_inv hb).1, mem_scanPositions (detectBestIdx_mem hb)⟩

/-- Witness for C9: the detector accepts the 6-byte 3×2 frame. -/
theorem claim_C9_break_index_patch_aligned_witness :
    ([0, 1, 2, 3, 4, 5] : List ℕ).length = 3 * 2 :=
  (claim_C9_break_index_patch_aligned demosaicTriple [0, 1, 2, 3, 4, 5] 3 2 1 0
    (by decide)).1

/-- C10: `detect_and_fix_shift` writes its correction to a fresh copy: the
output buffer has exactly `width*height` bytes (the input's length) and agrees
with the input at every index strictly below the detected break index — the
repair touches only indices at or above `best_idx`. -/
theorem claim_C10_fix_preserves_lower_indices
    (demosaic : List (List ℕ) → List (List (ℕ × ℕ × ℕ)))
    (raw : List ℕ) (w h p b : ℕ) (out : List ℕ)
    (hfix : detect_and_fix_shift demosaic raw w h p = some (b, out)) :
    out.length = w * h ∧ out.length = raw.length ∧
    ∀ i, i < b → out.getD i 0 = raw.getD i 0 := by
  unfold detect_and_fix_shift at hfix
  cases hdet : detectBestIdx demosaic raw w h p with
  | none =>
    rw [hdet] at hfix
    exact Option.noConfusion hfix
  | some b2 =>
    rw [hdet] at hfix
    injection hfix with hfix
    injection hfix with h1 h2
    subst h1
    have hlen := (detectBestIdx_inv hdet).1
    have hblt : b2 < raw.length := by
      have := scanPositions_lt (detectBestIdx_mem hdet)
      omega
    have hfl : (fixShiftAt raw b2).length = raw.length := by
      unfold fixShiftAt
      simp [List.length_take, List.length_dropLast, List.length_drop]
      omega
    refine ⟨?_, ?_, ?_⟩
    · rw [← h2, hfl, hlen]
    · rw [← h2, hfl]
    · intro i hi
      rw [← h2]
      unfold fixShiftAt
      rw [getD_append_left _ _ _ _ (by simp [List.length_take]; omega),
        getD_take _ _ _ _ hi]

/-- Witness for C10 at the 3×2 frame: output length 6 and byte 0 preserved
below the break index (vacuously many indices here, length facts checked). -/
theorem claim_C10_fix_preserves_lower_indices_witness :
    (([0, 0, 1, 2, 3, 4] : List ℕ).length = 3 * 2) ∧
    (([0, 0, 1, 2, 3, 4] : List ℕ).length = ([0, 1, 2, 3, 4, 5] : List ℕ).length) :=
  have h := claim_C10_fix_preserves_lower_indices demosaicTriple [0, 1, 2, 3, 4, 5] 3 2 1 0
    [0, 0, 1, 2, 3, 4] (by decide)
  ⟨h.1, h.2.1⟩

/-! ### Byte-Range Differ (`diffBinImage.py`) -/

/-- One line of differ output: a maximal differing range (first and last byte
index), or the report that one of the two files is longer starting at a byte
position. -/
inductive DiffEvent where
  | range (firstByte lastByte : ℕ)
  | longer1 (pos : ℕ)
  | longer2 (pos : ℕ)
  deriving DecidableEq, Repr

/-- Closing the currently open differing range, if any: the loop prints
`Difference from byte diff_start to pos - 1` (lines 44-45 and 52-53). -/
def closeEvents (st : Option ℕ) (pos : ℕ) : List DiffEvent :=
  match st with
  | some d => [.range d (pos - 1)]
  | none => []

/-- The comparison loop of `diffBinImage.py` once one of the two streams is
exhausted: `f.read(1)` on the exhausted stream keeps returning the empty
bytes object, which compares unequal to every real byte, so the loop keeps
running (opening or extending a differing range) until the other stream is
exhausted too. -/
def diffTail : List ℕ → ℕ → Option ℕ → List DiffEvent × ℕ × List ℕ × List ℕ
  | [], pos, st => (closeEvents st pos, pos, [], [])
  | _ :: rest, pos, st => diffTail rest (pos + 1) (some (st.getD pos))

/-- The lock-step loop of `diffBinImage.py` (lines 39-56) over the remaining
contents of the two streams, current position `pos` and open-range state `st`.
Returns the printed events, the position at the `break`, and the bytes left
unread in each stream at that point. -/
def diffRun : List ℕ → List ℕ → ℕ → Option ℕ → List DiffEvent × ℕ × List ℕ × List ℕ
  | [], l2, pos, st => diffTail l2 pos st
  | x :: xs, [], pos, st => diffTail (x :: xs) pos st
  | x :: xs, y :: ys, pos, st =>
    if x = y then
      let r := diffRun xs ys (pos + 1) none
      (closeEvents st pos ++ r.1, r.2)
    else
      diffRun xs ys (pos + 1) (some (st.getD pos))

/-- The whole differ (lines 35-64): run the loop from position 0 with no open
range, then `extra1 = f1.read()`, `extra2 = f2.read()` report a longer file
from the bytes still unread after the loop. -/
def diffBin (l1 l2 : List ℕ) : List DiffEvent :=
  let r := diffRun l1 l2 0 none
  let extra1 := r.2.2.1
  let extra2 := r.2.2.2
  if extra1 ≠ [] then r.1 ++ [.longer1 r.2.1]
  else if extra2 ≠ [] then r.1 ++ [.longer2 r.2.1]
  else r.1

/-- C4 (code evaluated at the failing input): on streams `[1,2,3]` and
`[1,2,3,4,5]`, where the first is a strict prefix of the second, the differ
reports the trailing two bytes as the differing range 3..4 and never emits the
`file2 is longer starting at byte 3` report, because the lock-step loop has
already consumed both streams when the trailing-length check runs. -/
theorem claim_C4_trailing_extension_misreported :
    diffBin [1, 2, 3] [1, 2, 3, 4, 5] = [DiffEvent.range 3 4] := by decide

/-! ### Header decoding (`main.py` lines 28-40, `BayerImageProcessor.py`
lines 61-70) -/

/-- Analog gain: header byte 8 (`analog_gain = header_bytes[8]`). -/
def analog_gain (header : List ℕ) : ℕ := header.getD 8 0

/-- Integration time raw count: the little-endian 16-bit value of header
bytes 9-10 (`int.from_bytes(header_bytes[9:11], byteorder='little')`). -/
def integration_time (header : List ℕ) : ℕ :=
  header.getD 9 0 + 256 * header.getD 10 0

/-- Integration time in milliseconds: `integration_time * 0.0104`, with the
float arithmetic modelled exactly over `ℚ`. -/
def integration_time_ms (header : List ℕ) : ℚ :=
  (integration_time header : ℚ) * 0.0104

/-- C8: for any header whose byte 8 is `0x10` and whose bytes 9-10 are
`0x64 0x00`, the decoder reports analog gain 16, raw integration time 100
(little-endian), and integration time `1.040` ms. -/
theorem claim_C8_header_decode (header : List ℕ)
    (h8 : header.getD 8 0 = 0x10) (h9 : header.getD 9 0 = 0x64)
    (h10 : header.getD 10 0 = 0x00) :
    analog_gain header = 16 ∧ integration_time header = 100 ∧
    integration_time_ms header = 1.040 := by
  refine ⟨?_, ?_, ?_⟩
  · unfold analog_gain
    rw [h8]
  · unfold integration_time
    rw [h9, h10]
  · unfold integration_time_ms integration_time
    rw [h9, h10]
    norm_num

/-- Witness for C8 on a concrete 11-byte header. -/
theorem claim_C8_header_decode_witness :
    analog_gain [0, 0, 0, 0, 0, 0, 0, 0, 0x10, 0x64, 0x00] = 16 ∧
    integration_time [0, 0, 0, 0, 0, 0, 0, 0, 0x10, 0x64, 0x00] = 100 ∧
    integration_time_ms [0, 0, 0, 0, 0, 0, 0, 0, 0x10, 0x64, 0x00] = 1.040 :=
  claim_C8_header_decode [0, 0, 0, 0, 0, 0, 0, 0, 0x10, 0x64, 0x00]
    (by decide) (by decide) (by decide)

end BayerProc
